import Mathlib

/-!
A verification development for the `ispw-action-utilities` JavaScript module
(`src/index.js`).  JavaScript strings are embedded as `List Char`
(`String.prototype.toLowerCase` becomes `List.map Char.toLower`, which agrees
with it on the ASCII fragment all the relevant search patterns live in;
`substr(0, i)` becomes `List.take i`).  JavaScript values are embedded by the
mutual inductive `JSValue` below.  `new URL(s)` at the end of
`assembleRequestUrl` is a parse of the already-assembled string; the theorems
below speak about that assembled string itself.
-/

namespace Ispw

/-! ## Substring search: the model of `String.prototype.lastIndexOf` -/

/-- The pattern `pat` occurs in `s` starting at position `j`
(the JavaScript substring-match condition used by `indexOf`/`lastIndexOf`). -/
def OccursAt (pat s : List Char) (j : Nat) : Prop :=
  (s.drop j).take pat.length = pat

instance (pat s : List Char) (j : Nat) : Decidable (OccursAt pat s j) := by
  unfold OccursAt; infer_instance

/-- Highest position `k ≤ i` at which `pat` occurs in `s`, if any. -/
def lastIndexOfFrom (pat s : List Char) : Nat → Option Nat
  | 0 => if OccursAt pat s 0 then some 0 else none
  | i + 1 => if OccursAt pat s (i + 1) then some (i + 1) else lastIndexOfFrom pat s i

/-- `s.lastIndexOf(pat)` from JavaScript: the highest occurrence position,
`none` standing for the JavaScript result `-1`. -/
def lastIndexOf (pat s : List Char) : Option Nat :=
  lastIndexOfFrom pat s s.length

/-- `String.prototype.toLowerCase`, on the ASCII fragment. -/
def toLowerStr (s : List Char) : List Char := s.map Char.toLower

/-! ## URL assembly (`assembleRequestUrl`, src/index.js lines 91-121) -/

/-- One decoration-stripping stage of `assembleRequestUrl` (lines 92-104):
find the last occurrence of `pat` in the lowercased url and, when its index is
positive, truncate the original url there (`cesUrl.substr(0, index)`). -/
def stripDecoration (pat url : List Char) : List Char :=
  match lastIndexOf pat (toLowerStr url) with
  | some i => if 0 < i then url.take i else url
  | none => url

/-- Trailing-slash removal stage (lines 106-109):
`if (cesUrl.endsWith('/')) cesUrl = cesUrl.substr(0, cesUrl.length - 1)`. -/
def removeTrailingSlash (url : List Char) : List Char :=
  if url.getLast? = some '/' then url.dropLast else url

/-- The fields of the `buildParms` object that `assembleRequestUrl` reads. -/
structure BuildParms where
  containerId : List Char
  taskLevel : List Char
  taskIds : List (List Char)

/-- The `'/compuware'` search pattern of line 94. -/
def compuwareSeg : List Char := "/compuware".data

/-- The `'/ispw'` search pattern of line 101. -/
def ispwSeg : List Char := "/ispw".data

/-- Composition suffix of `assembleRequestUrl` (lines 111-117): path, repeated
`taskId=` entries in input order each followed by `&`, then the `level=` entry. -/
def assembleFromBase (base srid : List Char) (bp : BuildParms) : List Char :=
  let t1 := base ++ "/ispw/".data ++ srid ++ "/assignments/".data
  let t2 := t1 ++ bp.containerId
  let t3 := t2 ++ "/taskIds/generate-await?".data
  let t4 := bp.taskIds.foldl (fun acc id => acc ++ "taskId=".data ++ id ++ "&".data) t3
  t4 ++ "level=".data ++ bp.taskLevel

/-- `assembleRequestUrl` (lines 91-121), producing the string handed to
`new URL(...)`: strip a positive-index last `'/compuware'` occurrence, then a
positive-index last `'/ispw'` occurrence, then one trailing slash, then append
the path and query. -/
def assembleRequestUrl (cesUrl srid : List Char) (bp : BuildParms) : List Char :=
  assembleFromBase
    (removeTrailingSlash (stripDecoration ispwSeg (stripDecoration compuwareSeg cesUrl)))
    srid bp

/-- The query component of an assembled url string: what follows the first `?`. -/
def queryOf (s : List Char) : List Char :=
  (s.dropWhile (fun c => c ≠ '?')).drop 1

/-! ## A clean base url: no positive-index occurrence of either decoration -/

/-- Boolean check that `lastIndexOf pat s` is either `-1` or `0`, i.e. that the
stripping guard `index > 0` never fires for `pat` on `s`. -/
def atMostZeroIdx (pat s : List Char) : Bool :=
  match lastIndexOf pat s with
  | none => true
  | some i => i == 0

/-- The `taskId={id}&` query entry appended for one task id (line 115). -/
def taskIdEntry (id : List Char) : List Char := "taskId=".data ++ id ++ "&".data

/-! ## JavaScript values

The mutual inductive `JSValue` embeds the JavaScript values the module
manipulates: `undefined`, `null`, booleans, numbers (the integral fragment, as
`Int`), strings, arrays and plain objects (ordered key/value members). -/

mutual
inductive JSValue where
  | undefined
  | null
  | bool (b : Bool)
  | num (n : Int)
  | str (s : List Char)
  | arr (xs : JSArr)
  | obj (fs : JSObj)
deriving DecidableEq

inductive JSArr where
  | nil
  | cons (hd : JSValue) (tl : JSArr)
deriving DecidableEq

inductive JSObj where
  | nil
  | cons (k : List Char) (v : JSValue) (tl : JSObj)
deriving DecidableEq
end

def isUndef : JSValue → Bool
  | .undefined => true
  | _ => false

def isNull : JSValue → Bool
  | .null => true
  | _ => false

def isStr : JSValue → Bool
  | .str _ => true
  | _ => false

def isArr : JSValue → Bool
  | .arr _ => true
  | _ => false

/-- The strict comparison `v === 0`. -/
def isZeroNum : JSValue → Bool
  | .num n => n == 0
  | _ => false

/-- JavaScript truthiness, used by `if (responseBody.message)`. -/
def truthy : JSValue → Bool
  | .undefined => false
  | .null => false
  | .bool b => b
  | .num n => !(n == 0)
  | .str s => !s.isEmpty
  | .arr _ => true
  | .obj _ => true

def arrLength : JSArr → Nat
  | .nil => 0
  | .cons _ tl => arrLength tl + 1

/-- Member lookup on a plain object; a missing key reads as `undefined`. -/
def lookupObj : JSObj → List Char → JSValue
  | .nil, _ => .undefined
  | .cons k v tl, key => if k = key then v else lookupObj tl key

/-- The failure modes of the modeled code: a thrown `GenerateFailureException`
carrying its message, or the `TypeError` raised by reading a property of
`null`/`undefined`. -/
inductive JsError where
  | typeError
  | generateFailure (message : List Char)
deriving DecidableEq

/-- Property access `v[key]`: throws `TypeError` on `null`/`undefined`,
looks up object members, exposes `length` on strings and arrays, and reads
`undefined` on everything else. -/
def getProp : JSValue → List Char → Except JsError JSValue
  | .undefined, _ => .error .typeError
  | .null, _ => .error .typeError
  | .obj fs, key => .ok (lookupObj fs key)
  | .str s, key => if key = "length".data then .ok (.num (s.length : Int)) else .ok .undefined
  | .arr a, key => if key = "length".data then .ok (.num (arrLength a : Int)) else .ok .undefined
  | _, _ => .ok .undefined

/-- Property access at sites where the receiver is known not to be
`null`/`undefined` (the error branch is unreachable there). -/
def propOf (v : JSValue) (key : List Char) : JSValue :=
  match getProp v key with
  | .ok w => w
  | .error _ => .undefined

/-- `stringHasContent` (lines 128-134): content means not `null`, not
`undefined`, and `.length` not strictly equal to `0` (the short-circuit of the
source's `||` makes the `length` read safe, hence `propOf`). -/
def stringHasContent (v : JSValue) : Bool :=
  if isNull v || isUndef v || isZeroNum (propOf v "length".data) then false else true

/-! ## Decimal rendering (for `${...}` template-literal coercion) -/

def digitChar (n : Nat) : Char := Char.ofNat ('0'.toNat + n)

def natDecGo : Nat → Nat → List Char
  | 0, _ => []
  | fuel + 1, n => if n < 10 then [digitChar n] else natDecGo fuel (n / 10) ++ [digitChar (n % 10)]

def natDec (n : Nat) : List Char := natDecGo (n + 1) n

def intToDec (n : Int) : List Char :=
  if n < 0 then '-' :: natDec n.natAbs else natDec n.toNat

mutual
/-- JavaScript string coercion, as performed by a template literal `${v}`,
on the modeled fragment of values. -/
def jsToString : JSValue → List Char
  | .undefined => "undefined".data
  | .null => "null".data
  | .bool true => "true".data
  | .bool false => "false".data
  | .num n => intToDec n
  | .str s => s
  | .arr a => joinComma a
  | .obj _ => "[object Object]".data

/-- `Array.prototype.toString`, i.e. `join(',')`: elements are coerced
recursively, with `null`/`undefined` elements rendered empty. -/
def joinComma : JSArr → List Char
  | .nil => []
  | .cons x .nil =>
    (match x with
     | .undefined => []
     | .null => []
     | v => jsToString v)
  | .cons x tl =>
    (match x with
     | .undefined => []
     | .null => []
     | v => jsToString v) ++ ',' :: joinComma tl
end

/-! ## `getStatusMessageToPrint` (lines 246-254) -/

/-- The `forEach` accumulation `message = message + line + '\n'`. -/
def statusConcat : List Char → JSArr → List Char
  | acc, .nil => acc
  | acc, .cons x tl => statusConcat (acc ++ jsToString x ++ ['\n']) tl

/-- `getStatusMessageToPrint`: a string passes through, an array is folded
line-by-line with trailing newlines, anything else gives `''`. -/
def getStatusMessageToPrint : JSValue → List Char
  | .str s => s
  | .arr a => statusConcat [] a
  | _ => []

/-! ## `validateBuildParms` and `getMissingInputMessage` (lines 36-66) -/

/-- The object literal `fieldNameReplacement` of lines 58-63; indexing with an
unknown field reads `undefined`. -/
def fieldNameReplacement (f : List Char) : JSValue :=
  if f = "containerId".data then .str "n assignment ID".data
  else if f = "releaseId".data then .str " release ID".data
  else if f = "taskLevel".data then .str " level".data
  else if f = "taskIds".data then .str " list of task IDs".data
  else .undefined

/-- `getMissingInputMessage` (lines 57-66), via the template literal
`` `Missing input: a${fieldNameReplacement[fieldName]} must be specified.` ``. -/
def getMissingInputMessage (f : List Char) : List Char :=
  "Missing input: a".data ++ jsToString (fieldNameReplacement f) ++ " must be specified.".data

/-- `validateBuildParms` (lines 36-49).  Besides the returned boolean the model
collects the `console.error` diagnostics, in emission order. -/
def validateBuildParms (buildParms : JSValue) (requiredFields : List (List Char)) :
    Bool × List (List Char) :=
  if isNull buildParms || isUndef buildParms then (false, [])
  else
    requiredFields.foldl
      (fun acc field =>
        if stringHasContent (propOf buildParms field) then acc
        else (false, acc.2 ++ [getMissingInputMessage field]))
      (true, [])

/-! ## `assembleRequestBodyObject` (lines 146-161) -/

/-- The strict comparison `v === s` against a string literal. -/
def strictEqStr (v : JSValue) (s : List Char) : Bool :=
  match v with
  | .str t => t == s
  | _ => false

/-- `assembleRequestBodyObject`: member added only when the corresponding
input has content, in source order, with `autoDeploy` always set to
`autoDeploy === 'true'`. -/
def assembleRequestBodyObject (runtimeConfig changeType executionStatus autoDeploy : JSValue) :
    List (List Char × JSValue) :=
  (if stringHasContent runtimeConfig then [("runtimeConfig".data, runtimeConfig)] else []) ++
  (if stringHasContent changeType then [("changeType".data, changeType)] else []) ++
  (if stringHasContent executionStatus then [("execStat".data, executionStatus)] else []) ++
  [("autoDeploy".data, .bool (strictEqStr autoDeploy "true".data))]

/-! ## `handleResponseBody` (lines 216-237) -/

/-- A line written to the console: `console.log` or `console.error`. -/
inductive ConsoleLine where
  | log (v : JSValue)
  | error (v : JSValue)

def noResponseMessage : List Char :=
  "No response was received from the generate request.".data

def incompleteMessage : List Char :=
  "The generate did not complete successfully.".data

def failuresMessage : List Char :=
  "There were generate failures.".data

/-- `handleResponseBody`: branch on `responseBody === undefined`, then on
`responseBody.awaitStatus === undefined` (a `TypeError` for a `null`
responseBody), then on `awaitStatus.generateFailedCount !== 0` (a `TypeError`
for a `null` awaitStatus); the result pairs the console lines emitted with the
returned value or thrown error. -/
def handleResponseBody (responseBody : JSValue) : List ConsoleLine × Except JsError JSValue :=
  if isUndef responseBody then
    ([], .error (.generateFailure noResponseMessage))
  else
    match getProp responseBody "awaitStatus".data with
    | .error e => ([], .error e)
    | .ok awaitStatus =>
      if isUndef awaitStatus then
        ((if truthy (propOf responseBody "message".data) then
            [ConsoleLine.log (propOf responseBody "message".data)]
          else []),
          .error (.generateFailure incompleteMessage))
      else
        match getProp awaitStatus "generateFailedCount".data with
        | .error e => ([], .error e)
        | .ok gfc =>
          if isZeroNum gfc then
            ([ConsoleLine.log (.str (getStatusMessageToPrint (propOf awaitStatus "statusMsg".data)))],
              .ok responseBody)
          else
            ([ConsoleLine.error (.str (getStatusMessageToPrint (propOf awaitStatus "statusMsg".data)))],
              .error (.generateFailure failuresMessage))

/-! ## Auxiliary constructions for the status-message theorems -/

/-- A JavaScript array holding exactly the given strings, in order. -/
def strArr : List (List Char) → JSArr
  | [] => .nil
  | s :: tl => .cons (.str s) (strArr tl)

/-! ## Lookup in the assembled request body -/

/-- Member lookup in the assembled request-body association list. -/
def lookupEntry : List (List Char × JSValue) → List Char → Option JSValue
  | [], _ => none
  | (k, v) :: tl, key => if k = key then some v else lookupEntry tl key

/-! ## JSON serialization (`convertObjectToJson`, lines 74-80)

`JSON.stringify` is modeled on serializable values: JSON string escaping,
integral numbers in decimal, arrays and objects without whitespace.  (The
`undefined` case below renders as `null`, its array-slot behavior; the
round-trip theorem is stated for serializable values, which exclude
`undefined` altogether.) -/

def hexChar (n : Nat) : Char :=
  if n < 10 then Char.ofNat ('0'.toNat + n) else Char.ofNat ('a'.toNat + (n - 10))

/-- JSON escaping of one character, as `JSON.stringify` performs it. -/
def escapeChar (c : Char) : List Char :=
  if c = '"' then ['\\', '"']
  else if c = '\\' then ['\\', '\\']
  else if c = '\n' then ['\\', 'n']
  else if c = '\r' then ['\\', 'r']
  else if c = '\t' then ['\\', 't']
  else if c = '\x08' then ['\\', 'b']
  else if c = '\x0c' then ['\\', 'f']
  else if c.toNat < 32 then ['\\', 'u', '0', '0', hexChar (c.toNat / 16), hexChar (c.toNat % 16)]
  else [c]

def escapeString (s : List Char) : List Char := (s.map escapeChar).flatten

/-- A JSON string literal: quotes around the escaped content. -/
def quoteStr (s : List Char) : List Char := '"' :: escapeString s ++ ['"']

mutual
def stringifyV : JSValue → List Char
  | .undefined => "null".data
  | .null => "null".data
  | .bool true => "true".data
  | .bool false => "false".data
  | .num n => intToDec n
  | .str s => quoteStr s
  | .arr .nil => "[]".data
  | .arr (.cons x tl) => '[' :: stringifyV x ++ stringifyA tl ++ [']']
  | .obj .nil => ['\x7b', '\x7d']
  | .obj (.cons k v tl) => '\x7b' :: quoteStr k ++ ':' :: stringifyV v ++ stringifyO tl ++ ['\x7d']

def stringifyA : JSArr → List Char
  | .nil => []
  | .cons x tl => ',' :: stringifyV x ++ stringifyA tl

def stringifyO : JSObj → List Char
  | .nil => []
  | .cons k v tl => ',' :: quoteStr k ++ ':' :: stringifyV v ++ stringifyO tl
end

/-- `convertObjectToJson` (lines 74-80): the empty string for `null` and
`undefined` (both caught by `data !== null && data != undefined`), otherwise
`JSON.stringify`. -/
def convertObjectToJson : JSValue → List Char
  | .null => []
  | .undefined => []
  | v => stringifyV v

/-! ## JSON parsing (`JSON.parse`, used by `parseStringAsJson`, lines 22-28)

The model covers the whitespace-free fragment `JSON.stringify` emits (and
arbitrary escapes in strings); the fuel argument only bounds nesting and is
chosen large enough by `jsonParse`. -/

def unescapeChar (e : Char) : Option Char :=
  if e = '"' then some '"'
  else if e = '\\' then some '\\'
  else if e = '/' then some '/'
  else if e = 'b' then some '\x08'
  else if e = 'f' then some '\x0c'
  else if e = 'n' then some '\n'
  else if e = 'r' then some '\r'
  else if e = 't' then some '\t'
  else none

def hexVal (c : Char) : Option Nat :=
  if '0' ≤ c ∧ c ≤ '9' then some (c.toNat - '0'.toNat)
  else if 'a' ≤ c ∧ c ≤ 'f' then some (c.toNat - 'a'.toNat + 10)
  else if 'A' ≤ c ∧ c ≤ 'F' then some (c.toNat - 'A'.toNat + 10)
  else none

/-- Parse the remainder of a JSON string literal (after the opening quote),
up to and including the closing quote. -/
def parseJStr : List Char → Option (List Char × List Char)
  | [] => none
  | c :: r =>
    if c = '"' then some ([], r)
    else if c = '\\' then
      match r with
      | [] => none
      | e :: r2 =>
        if e = 'u' then
          match r2 with
          | h1 :: h2 :: h3 :: h4 :: r3 =>
            match hexVal h1, hexVal h2, hexVal h3, hexVal h4 with
            | some a, some b, some c2, some d =>
              let n := ((a * 16 + b) * 16 + c2) * 16 + d
              if n.isValidChar then
                match parseJStr r3 with
                | some (cs, r4) => some (Char.ofNat n :: cs, r4)
                | none => none
              else none
            | _, _, _, _ => none
          | _ => none
        else
          match unescapeChar e with
          | some u =>
            match parseJStr r2 with
            | some (cs, r3) => some (u :: cs, r3)
            | none => none
          | none => none
    else
      match parseJStr r with
      | some (cs, r2) => some (c :: cs, r2)
      | none => none

def digitVal (c : Char) : Nat := c.toNat - '0'.toNat

def digitsVal (ds : List Char) : Nat := ds.foldl (fun a c => 10 * a + digitVal c) 0

mutual
/-- Parse one JSON value. -/
def parseV : Nat → List Char → Option (JSValue × List Char)
  | 0, _ => none
  | _ + 1, [] => none
  | fuel + 1, c :: r =>
    if c.isDigit then
      some (.num (digitsVal ((c :: r).takeWhile Char.isDigit) : Int),
        (c :: r).dropWhile Char.isDigit)
    else if c = '-' then
      match r with
      | [] => none
      | c2 :: r2 =>
        if c2.isDigit then
          some (.num (-(digitsVal ((c2 :: r2).takeWhile Char.isDigit) : Int)),
            (c2 :: r2).dropWhile Char.isDigit)
        else none
    else if c = 'n' then
      match r with
      | 'u' :: 'l' :: 'l' :: r2 => some (.null, r2)
      | _ => none
    else if c = 't' then
      match r with
      | 'r' :: 'u' :: 'e' :: r2 => some (.bool true, r2)
      | _ => none
    else if c = 'f' then
      match r with
      | 'a' :: 'l' :: 's' :: 'e' :: r2 => some (.bool false, r2)
      | _ => none
    else if c = '"' then
      match parseJStr r with
      | some (cs, r2) => some (.str cs, r2)
      | none => none
    else if c = '[' then
      match r with
      | [] => none
      | c2 :: r2 =>
        if c2 = ']' then some (.arr .nil, r2)
        else
          match parseV fuel (c2 :: r2) with
          | some (v, r3) =>
            match parseA fuel r3 with
            | some (tl, r4) => some (.arr (.cons v tl), r4)
            | none => none
          | none => none
    else if c = '\x7b' then
      match r with
      | [] => none
      | c2 :: r2 =>
        if c2 = '\x7d' then some (.obj .nil, r2)
        else if c2 = '"' then
          match parseJStr r2 with
          | some (k, r3) =>
            match r3 with
            | ':' :: r4 =>
              match parseV fuel r4 with
              | some (v, r5) =>
                match parseO fuel r5 with
                | some (tl, r6) => some (.obj (.cons k v tl), r6)
                | none => none
              | none => none
            | _ => none
          | none => none
        else none
    else none

/-- Parse the continuation of an array after one element: `]` or `,` then more. -/
def parseA : Nat → List Char → Option (JSArr × List Char)
  | 0, _ => none
  | _ + 1, [] => none
  | fuel + 1, c :: r =>
    if c = ']' then some (.nil, r)
    else if c = ',' then
      match parseV fuel r with
      | some (v, r2) =>
        match parseA fuel r2 with
        | some (tl, r3) => some (.cons v tl, r3)
        | none => none
      | none => none
    else none

/-- Parse the continuation of an object after one member. -/
def parseO : Nat → List Char → Option (JSObj × List Char)
  | 0, _ => none
  | _ + 1, [] => none
  | fuel + 1, c :: r =>
    if c = '\x7d' then some (.nil, r)
    else if c = ',' then
      match r with
      | [] => none
      | c2 :: r2 =>
        if c2 = '"' then
          match parseJStr r2 with
          | some (k, r3) =>
            match r3 with
            | ':' :: r4 =>
              match parseV fuel r4 with
              | some (v, r5) =>
                match parseO fuel r5 with
                | some (tl, r6) => some (.cons k v tl, r6)
                | none => none
              | none => none
            | _ => none
          | none => none
        else none
    else none
end

/-- The model of `JSON.parse`: one value consuming the entire input;
`none` models the thrown `SyntaxError`. -/
def jsonParse (s : List Char) : Option JSValue :=
  match parseV (s.length + 1) s with
  | some (v, []) => some v
  | _ => none

/-- `parseStringAsJson` (lines 22-28): parses non-empty input with
`JSON.parse`; empty input leaves `parsedObj` undefined. -/
def parseStringAsJson (jsonString : List Char) : Option JSValue :=
  if stringHasContent (.str jsonString) then jsonParse jsonString
  else some .undefined

def keysOf : JSObj → List (List Char)
  | .nil => []
  | .cons k _ tl => k :: keysOf tl

mutual
/-- JSON-serializability: no `undefined` anywhere, and duplicate-free object
keys (every JavaScript object satisfies the latter). -/
def serializableV : JSValue → Bool
  | .undefined => false
  | .null => true
  | .bool _ => true
  | .num _ => true
  | .str _ => true
  | .arr a => serializableA a
  | .obj o => serializableO o && decide (keysOf o).Nodup

def serializableA : JSArr → Bool
  | .nil => true
  | .cons x tl => serializableV x && serializableA tl

def serializableO : JSObj → Bool
  | .nil => true
  | .cons _ v tl => serializableV v && serializableO tl
end

/-- No digit in leading position (what follows a serialized number in any
JSON context: `,`, `]`, or the end of input). -/
def noLeadDigit : List Char → Bool
  | [] => true
  | c :: _ => !c.isDigit

/-! ## Round-trip: fuel accounting and head facts -/

mutual
/-- Fuel needed by `parseV` to re-read a serialized value. -/
def weightV : JSValue → Nat
  | .undefined => 1
  | .null => 1
  | .bool _ => 1
  | .num _ => 1
  | .str _ => 1
  | .arr .nil => 1
  | .arr (.cons x tl) => 1 + weightV x + weightA tl
  | .obj .nil => 1
  | .obj (.cons _ v tl) => 1 + weightV v + weightO tl

def weightA : JSArr → Nat
  | .nil => 1
  | .cons x tl => 1 + weightV x + weightA tl

def weightO : JSObj → Nat
  | .nil => 1
  | .cons _ v tl => 1 + weightV v + weightO tl
end

/-! ## Round-trip: the mutual induction -/

/-- The parser re-reads a serialized value, leaving any non-digit-leading
suffix intact. -/
def RTV (v : JSValue) : Prop :=
  ∀ fuel rest, serializableV v = true → weightV v ≤ fuel → noLeadDigit rest = true →
    parseV fuel (stringifyV v ++ rest) = some (v, rest)

/-- The parser re-reads a serialized array continuation up to its `]`. -/
def RTA (a : JSArr) : Prop :=
  ∀ fuel rest, serializableA a = true → weightA a ≤ fuel →
    parseA fuel (stringifyA a ++ ']' :: rest) = some (a, rest)

/-- The parser re-reads a serialized object continuation up to its closing
brace. -/
def RTO (o : JSObj) : Prop :=
  ∀ fuel rest, serializableO o = true → weightO o ≤ fuel →
    parseO fuel (stringifyO o ++ '\x7d' :: rest) = some (o, rest)

/-! ## Facts about `OccursAt` and `lastIndexOf` -/

theorem OccursAt.add_length_le {pat s : List Char} {j : Nat}
    (hpat : pat ≠ []) (h : OccursAt pat s j) : j + pat.length ≤ s.length := by
  unfold OccursAt at h
  have hlen := congrArg List.length h
  simp [List.length_take, List.length_drop] at hlen
  have hp : 0 < pat.length := List.length_pos.mpr hpat
  omega

theorem not_occursAt_of_length_lt {pat s : List Char} {j : Nat}
    (hpat : pat ≠ []) (h : s.length < j + pat.length) : ¬ OccursAt pat s j :=
  fun hc => absurd (hc.add_length_le hpat) (by omega)

theorem lastIndexOfFrom_eq_some_iff (pat s : List Char) (i k : Nat) :
    lastIndexOfFrom pat s i = some k ↔
      (k ≤ i ∧ OccursAt pat s k ∧ ∀ j, k < j → j ≤ i → ¬ OccursAt pat s j) := by
  induction i with
  | zero =>
    simp only [lastIndexOfFrom]
    split
    · rename_i h
      constructor
      · rintro ⟨rfl⟩
        exact ⟨le_refl 0, h, fun j h1 h2 => by omega⟩
      · rintro ⟨hk, _, _⟩
        interval_cases k
        rfl
    · rename_i h
      constructor
      · rintro ⟨⟩
      · rintro ⟨hk, hocc, _⟩
        interval_cases k
        exact absurd hocc h
  | succ i ih =>
    simp only [lastIndexOfFrom]
    split
    · rename_i h
      constructor
      · rintro ⟨rfl⟩
        exact ⟨le_refl _, h, fun j h1 h2 => by omega⟩
      · rintro ⟨hk, hocc, hab⟩
        rcases Nat.eq_or_lt_of_le hk with rfl | hk'
        · rfl
        · exact absurd h (hab (i + 1) (by omega) (le_refl _))
    · rename_i h
      rw [ih]
      constructor
      · rintro ⟨hk, hocc, hab⟩
        refine ⟨by omega, hocc, fun j h1 h2 => ?_⟩
        rcases Nat.eq_or_lt_of_le h2 with rfl | h2'
        · exact h
        · exact hab j h1 (by omega)
      · rintro ⟨hk, hocc, hab⟩
        have hk' : k ≤ i := by
          rcases Nat.eq_or_lt_of_le hk with rfl | h'
          · exact absurd hocc h
          · omega
        exact ⟨hk', hocc, fun j h1 h2 => hab j h1 (by omega)⟩

theorem lastIndexOfFrom_eq_none_iff (pat s : List Char) (i : Nat) :
    lastIndexOfFrom pat s i = none ↔ ∀ j, j ≤ i → ¬ OccursAt pat s j := by
  induction i with
  | zero =>
    simp only [lastIndexOfFrom]
    split
    · rename_i h
      constructor
      · rintro ⟨⟩
      · intro hall
        exact absurd h (hall 0 (le_refl 0))
    · rename_i h
      constructor
      · intro _ j hj
        interval_cases j
        exact h
      · intro _
        rfl
  | succ i ih =>
    simp only [lastIndexOfFrom]
    split
    · rename_i h
      constructor
      · rintro ⟨⟩
      · intro hall
        exact absurd h (hall (i + 1) (le_refl _))
    · rename_i h
      rw [ih]
      constructor
      · intro hall j hj
        rcases Nat.eq_or_lt_of_le hj with rfl | hj'
        · exact h
        · exact hall j (by omega)
      · intro hall j hj
        exact hall j (by omega)

theorem occursAt_append_inner {pat x : List Char} (y : List Char) {j : Nat}
    (h : j + pat.length ≤ x.length) : OccursAt pat (x ++ y) j ↔ OccursAt pat x j := by
  unfold OccursAt
  rw [List.drop_append_eq_append_drop]
  have h1 : j - x.length = 0 := by omega
  rw [h1, List.drop_zero, List.take_append_eq_append_take]
  have h2 : pat.length - (x.drop j).length = 0 := by
    simp only [List.length_drop]; omega
  rw [h2, List.take_zero, List.append_nil]

theorem occursAt_append_add {pat : List Char} (x y : List Char) (m : Nat) :
    OccursAt pat (x ++ y) (x.length + m) ↔ OccursAt pat y m := by
  unfold OccursAt
  rw [List.drop_append_eq_append_drop]
  have h1 : x.drop (x.length + m) = [] := List.drop_eq_nil_of_le (by omega)
  have h2 : x.length + m - x.length = m := by omega
  rw [h1, h2, List.nil_append]

theorem occursAt_cross {pat x y : List Char} {j : Nat}
    (h : OccursAt pat (x ++ y) j) (h1 : j < x.length) (h2 : x.length < j + pat.length) :
    pat.drop (x.length - j) = y.take (pat.length - (x.length - j)) := by
  unfold OccursAt at h
  rw [List.drop_append_eq_append_drop] at h
  have hj0 : j - x.length = 0 := by omega
  rw [hj0, List.drop_zero, List.take_append_eq_append_take] at h
  have hlen : (x.drop j).length = x.length - j := by simp
  have hxd : (x.drop j).take pat.length = x.drop j := by
    apply List.take_of_length_le
    omega
  rw [hxd, hlen] at h
  have hc := congrArg (List.drop (x.length - j)) h.symm
  rw [List.drop_append_eq_append_drop] at hc
  have e1 : (x.drop j).drop (x.length - j) = [] := by
    rw [← hlen]; exact List.drop_length _
  have e2 : x.length - j - (x.drop j).length = 0 := by rw [hlen]; omega
  rw [e1, e2, List.drop_zero, List.nil_append] at hc
  exact hc

theorem noOccur_of_bounded {pat y : List Char} (hpat : pat ≠ [])
    (h : ∀ m, m < y.length → ¬ OccursAt pat y m) : ∀ m, ¬ OccursAt pat y m := by
  intro m hm
  have hp : 0 < pat.length := List.length_pos.mpr hpat
  by_cases hcase : m < y.length
  · exact h m hcase hm
  · exact not_occursAt_of_length_lt hpat (by omega) hm

theorem noPosOccur_of_bounded {pat y : List Char} (hpat : pat ≠ [])
    (h : ∀ m, m < y.length → ¬ OccursAt pat y (m + 1)) :
    ∀ j, 0 < j → ¬ OccursAt pat y j := by
  intro j hj hocc
  have hp : 0 < pat.length := List.length_pos.mpr hpat
  by_cases hcase : j - 1 < y.length
  · have hj1 : j = j - 1 + 1 := by omega
    exact h (j - 1) hcase (hj1 ▸ hocc)
  · exact not_occursAt_of_length_lt hpat (by omega) hocc

theorem noPosOccur_append {pat x y : List Char} (hpat : pat ≠ [])
    (hx : ∀ j, 0 < j → ¬ OccursAt pat x j)
    (hy : ∀ m, ¬ OccursAt pat y m)
    (hcross : ∀ d, d < pat.length - 1 → pat.drop (d + 1) ≠ y.take (pat.length - (d + 1))) :
    ∀ j, 0 < j → ¬ OccursAt pat (x ++ y) j := by
  intro j hj hocc
  have hp : 0 < pat.length := List.length_pos.mpr hpat
  by_cases hcase1 : j + pat.length ≤ x.length
  · exact hx j hj ((occursAt_append_inner y hcase1).mp hocc)
  · by_cases hcase2 : x.length ≤ j
    · have hm : j = x.length + (j - x.length) := by omega
      rw [hm] at hocc
      exact hy _ ((occursAt_append_add x y _).mp hocc)
    · have hcrossed := occursAt_cross hocc (by omega) (by omega)
      have hd : x.length - j = (x.length - j - 1) + 1 := by omega
      rw [hd] at hcrossed
      exact hcross (x.length - j - 1) (by omega) hcrossed

/-! ## Reductions of the stripping stages -/

theorem stripDecoration_eq_self {pat url : List Char}
    (h : ∀ j, 0 < j → ¬ OccursAt pat (toLowerStr url) j) :
    stripDecoration pat url = url := by
  unfold stripDecoration
  cases hcase : lastIndexOf pat (toLowerStr url) with
  | none => rfl
  | some i =>
    unfold lastIndexOf at hcase
    rw [lastIndexOfFrom_eq_some_iff] at hcase
    obtain ⟨_, hocc, _⟩ := hcase
    have hi : i = 0 := by
      by_contra hne
      exact h i (by omega) hocc
    subst hi
    simp

theorem lastIndexOf_eq_some {pat s : List Char} {k : Nat} (hpat : pat ≠ [])
    (hocc : OccursAt pat s k) (hab : ∀ j, k < j → ¬ OccursAt pat s j) :
    lastIndexOf pat s = some k := by
  unfold lastIndexOf
  rw [lastIndexOfFrom_eq_some_iff]
  have hp : 0 < pat.length := List.length_pos.mpr hpat
  have hle := hocc.add_length_le hpat
  exact ⟨by omega, hocc, fun j h1 _ => hab j h1⟩

theorem stripDecoration_eq_take {pat url : List Char} {k : Nat} (hpat : pat ≠ [])
    (hk0 : 0 < k) (hocc : OccursAt pat (toLowerStr url) k)
    (hab : ∀ j, k < j → ¬ OccursAt pat (toLowerStr url) j) :
    stripDecoration pat url = url.take k := by
  unfold stripDecoration
  rw [lastIndexOf_eq_some hpat hocc hab]
  simp [hk0]

theorem toLowerStr_append (a b : List Char) :
    toLowerStr (a ++ b) = toLowerStr a ++ toLowerStr b := List.map_append _ a b

theorem noPosOccur_of_atMostZeroIdx {pat s : List Char} (hpat : pat ≠ [])
    (h : atMostZeroIdx pat s = true) : ∀ j, 0 < j → ¬ OccursAt pat s j := by
  intro j hj hocc
  have hp : 0 < pat.length := List.length_pos.mpr hpat
  have hle := hocc.add_length_le hpat
  unfold atMostZeroIdx at h
  cases hc : lastIndexOf pat s with
  | none =>
    unfold lastIndexOf at hc
    rw [lastIndexOfFrom_eq_none_iff] at hc
    exact hc j (by omega) hocc
  | some i =>
    rw [hc] at h
    simp only [beq_iff_eq] at h
    subst h
    unfold lastIndexOf at hc
    rw [lastIndexOfFrom_eq_some_iff] at hc
    obtain ⟨_, _, hab⟩ := hc
    exact hab j hj (by omega) hocc

/-- Stripping a decoration that begins exactly at the end of the base `B`
truncates back to `B`. -/
theorem stripDecoration_boundary {pat B D : List Char} (hpat : pat ≠ []) (hB : B ≠ [])
    (hocc0 : OccursAt pat (toLowerStr D) 0)
    (htail : ∀ j, 0 < j → ¬ OccursAt pat (toLowerStr D) j) :
    stripDecoration pat (B ++ D) = B := by
  have hlen : (toLowerStr B).length = B.length := List.length_map _ _
  have hocc : OccursAt pat (toLowerStr (B ++ D)) B.length := by
    rw [toLowerStr_append]
    have h0 := (occursAt_append_add (toLowerStr B) (toLowerStr D) 0).mpr hocc0
    rw [Nat.add_zero, hlen] at h0
    exact h0
  have hab : ∀ j, B.length < j → ¬ OccursAt pat (toLowerStr (B ++ D)) j := by
    intro j hj hocc'
    rw [toLowerStr_append] at hocc'
    have hj' : j = (toLowerStr B).length + (j - B.length) := by omega
    rw [hj'] at hocc'
    exact htail (j - B.length) (by omega) ((occursAt_append_add _ _ _).mp hocc')
  rw [stripDecoration_eq_take hpat (List.length_pos.mpr hB) hocc hab, List.take_left]

/-- Stripping leaves `B ++ Y` alone when `B` is clean for `pat` and the suffix
`Y` neither contains `pat` nor completes an occurrence across the boundary. -/
theorem stripDecoration_skip {pat B Y : List Char} (hpat : pat ≠ [])
    (hB : ∀ j, 0 < j → ¬ OccursAt pat (toLowerStr B) j)
    (hy : ∀ m, ¬ OccursAt pat (toLowerStr Y) m)
    (hcross : ∀ d, d < pat.length - 1 →
      pat.drop (d + 1) ≠ (toLowerStr Y).take (pat.length - (d + 1))) :
    stripDecoration pat (B ++ Y) = B ++ Y := by
  apply stripDecoration_eq_self
  rw [toLowerStr_append]
  exact noPosOccur_append hpat hB hy hcross

theorem removeTrailingSlash_concat (B : List Char) :
    removeTrailingSlash (B ++ ['/']) = B := by
  unfold removeTrailingSlash
  rw [if_pos (List.getLast?_concat B), List.dropLast_concat]

theorem foldl_taskIds (t : List Char) (ids : List (List Char)) :
    ids.foldl (fun acc id => acc ++ "taskId=".data ++ id ++ "&".data) t
      = t ++ (ids.map taskIdEntry).flatten := by
  induction ids generalizing t with
  | nil => simp
  | cons x xs ih =>
    rw [List.foldl_cons, ih, List.map_cons, List.flatten_cons]
    simp [taskIdEntry, List.append_assoc]

/-- C1 (amended): for every base `B` that is nonempty, has no trailing slash and
has no positive-index case-insensitive occurrence of `'/compuware'` or `'/ispw'`,
every decoration `D` whose lowercase form is `''`, `'/compuware'`, `'/ispw'` or
`'/compuware/ispw'`, and an optional trailing slash `T`, `assembleRequestUrl`
applied to `B ++ D ++ T` yields the same normalized string
`B ++ '/ispw/' ++ srid ++ '/assignments/' ++ containerId ++
'/taskIds/generate-await?' ++ taskId entries ++ 'level=' ++ taskLevel`,
i.e. `assembleFromBase B`. -/
theorem assembleRequestUrl_decoration_invariant
    (B D T srid : List Char) (bp : BuildParms)
    (hB : B ≠ [])
    (hBslash : B.getLast? ≠ some '/')
    (hBcw : atMostZeroIdx compuwareSeg (toLowerStr B) = true)
    (hBispw : atMostZeroIdx ispwSeg (toLowerStr B) = true)
    (hD : toLowerStr D = [] ∨ toLowerStr D = compuwareSeg ∨ toLowerStr D = ispwSeg ∨
          toLowerStr D = compuwareSeg ++ ispwSeg)
    (hT : T = [] ∨ T = ['/']) :
    assembleRequestUrl (B ++ D ++ T) srid bp = assembleFromBase B srid bp := by
  have hcwne : compuwareSeg ≠ [] := by decide
  have hispwne : ispwSeg ≠ [] := by decide
  have hxcw := noPosOccur_of_atMostZeroIdx hcwne hBcw
  have hxispw := noPosOccur_of_atMostZeroIdx hispwne hBispw
  have hrmB : removeTrailingSlash B = B := by
    unfold removeTrailingSlash
    rw [if_neg hBslash]
  suffices hbase : removeTrailingSlash
      (stripDecoration ispwSeg (stripDecoration compuwareSeg (B ++ D ++ T))) = B by
    unfold assembleRequestUrl
    rw [hbase]
  rw [List.append_assoc]
  rcases hD with hD | hD | hD | hD
  · have hDnil : D = [] := by
      cases D with
      | nil => rfl
      | cons c cs => simp [toLowerStr] at hD
    subst hDnil
    rw [List.nil_append]
    rcases hT with rfl | rfl
    · rw [List.append_nil, stripDecoration_eq_self hxcw, stripDecoration_eq_self hxispw, hrmB]
    · have hs1 : stripDecoration compuwareSeg (B ++ ['/']) = B ++ ['/'] := by
        apply stripDecoration_skip hcwne hxcw
        · exact noOccur_of_bounded hcwne (by decide)
        · decide
      have hs2 : stripDecoration ispwSeg (B ++ ['/']) = B ++ ['/'] := by
        apply stripDecoration_skip hispwne hxispw
        · exact noOccur_of_bounded hispwne (by decide)
        · decide
      rw [hs1, hs2, removeTrailingSlash_concat]
  · rcases hT with rfl | rfl
    · have hlow : toLowerStr (D ++ []) = compuwareSeg := by
        rw [toLowerStr_append, hD]; rfl
      have hs1 : stripDecoration compuwareSeg (B ++ (D ++ [])) = B := by
        apply stripDecoration_boundary hcwne hB
        · rw [hlow]; decide
        · rw [hlow]
          exact noPosOccur_of_bounded hcwne (by decide)
      rw [hs1, stripDecoration_eq_self hxispw, hrmB]
    · have hlow : toLowerStr (D ++ ['/']) = compuwareSeg ++ ['/'] := by
        rw [toLowerStr_append, hD]; rfl
      have hs1 : stripDecoration compuwareSeg (B ++ (D ++ ['/'])) = B := by
        apply stripDecoration_boundary hcwne hB
        · rw [hlow]; decide
        · rw [hlow]
          exact noPosOccur_of_bounded hcwne (by decide)
      rw [hs1, stripDecoration_eq_self hxispw, hrmB]
  · rcases hT with rfl | rfl
    · have hlow : toLowerStr (D ++ []) = ispwSeg := by
        rw [toLowerStr_append, hD]; rfl
      have hs1 : stripDecoration compuwareSeg (B ++ (D ++ [])) = B ++ (D ++ []) := by
        apply stripDecoration_skip hcwne hxcw
        · rw [hlow]
          exact noOccur_of_bounded hcwne (by decide)
        · rw [hlow]; decide
      have hs2 : stripDecoration ispwSeg (B ++ (D ++ [])) = B := by
        apply stripDecoration_boundary hispwne hB
        · rw [hlow]; decide
        · rw [hlow]
          exact noPosOccur_of_bounded hispwne (by decide)
      rw [hs1, hs2, hrmB]
    · have hlow : toLowerStr (D ++ ['/']) = ispwSeg ++ ['/'] := by
        rw [toLowerStr_append, hD]; rfl
      have hs1 : stripDecoration compuwareSeg (B ++ (D ++ ['/'])) = B ++ (D ++ ['/']) := by
        apply stripDecoration_skip hcwne hxcw
        · rw [hlow]
          exact noOccur_of_bounded hcwne (by decide)
        · rw [hlow]; decide
      have hs2 : stripDecoration ispwSeg (B ++ (D ++ ['/'])) = B := by
        apply stripDecoration_boundary hispwne hB
        · rw [hlow]; decide
        · rw [hlow]
          exact noPosOccur_of_bounded hispwne (by decide)
      rw [hs1, hs2, hrmB]
  · rcases hT with rfl | rfl
    · have hlow : toLowerStr (D ++ []) = compuwareSeg ++ ispwSeg := by
        rw [toLowerStr_append, hD]; rfl
      have hs1 : stripDecoration compuwareSeg (B ++ (D ++ [])) = B := by
        apply stripDecoration_boundary hcwne hB
        · rw [hlow]; decide
        · rw [hlow]
          exact noPosOccur_of_bounded hcwne (by decide)
      rw [hs1, stripDecoration_eq_self hxispw, hrmB]
    · have hlow : toLowerStr (D ++ ['/']) = (compuwareSeg ++ ispwSeg) ++ ['/'] := by
        rw [toLowerStr_append, hD]; rfl
      have hs1 : stripDecoration compuwareSeg (B ++ (D ++ ['/'])) = B := by
        apply stripDecoration_boundary hcwne hB
        · rw [hlow]; decide
        · rw [hlow]
          exact noPosOccur_of_bounded hcwne (by decide)
      rw [hs1, stripDecoration_eq_self hxispw, hrmB]

/-- Witness for C1: a concrete clean base with a mixed-case
`'/CompuWare/IsPw'` decoration and a trailing slash normalizes to the base. -/
theorem assembleRequestUrl_decoration_invariant_witness :
    assembleRequestUrl ("http://host23".data ++ "/CompuWare/IsPw".data ++ "/".data)
        "sr1".data ⟨"asgn1".data, "DEV1".data, ["t1".data, "t2".data]⟩
      = assembleFromBase "http://host23".data "sr1".data
        ⟨"asgn1".data, "DEV1".data, ["t1".data, "t2".data]⟩ :=
  assembleRequestUrl_decoration_invariant _ _ _ _ _
    (by decide) (by decide) (by decide) (by decide)
    (Or.inr (Or.inr (Or.inr (by decide)))) (Or.inr (by decide))

/-- Counterexample for C1 as stated: `'http://compuware.example.com'` ends in
none of the decorations and has no trailing slash, yet the code truncates at
the interior `'/compuware'` occurrence (index 6, inside the hostname), so the
result is not the supplied base followed by `/ispw/...`. -/
theorem assembleRequestUrl_interior_counterexample :
    assembleRequestUrl "http://compuware.example.com".data "sr1".data
        ⟨"a1".data, "DEV1".data, ["t1".data]⟩
      = "http:/ispw/sr1/assignments/a1/taskIds/generate-await?taskId=t1&level=DEV1".data
    ∧ "http:/ispw/sr1/assignments/a1/taskIds/generate-await?taskId=t1&level=DEV1".data
      ≠ "http://compuware.example.com/ispw/sr1/assignments/a1/taskIds/generate-await?taskId=t1&level=DEV1".data := by
  constructor
  · decide
  · decide

/-- C10: whenever the lowercased base url has its last `'/compuware'`
occurrence at a positive index `k` — trailing or interior — everything from
position `k` on is discarded before composition. -/
theorem assembleRequestUrl_truncates_interior (cesUrl srid : List Char) (bp : BuildParms)
    (k : Nat) (hk : lastIndexOf compuwareSeg (toLowerStr cesUrl) = some k) (hk0 : 0 < k) :
    stripDecoration compuwareSeg cesUrl = cesUrl.take k ∧
    assembleRequestUrl cesUrl srid bp =
      assembleFromBase (removeTrailingSlash (stripDecoration ispwSeg (cesUrl.take k)))
        srid bp := by
  have h1 : stripDecoration compuwareSeg cesUrl = cesUrl.take k := by
    unfold stripDecoration
    rw [hk]
    simp [hk0]
  refine ⟨h1, ?_⟩
  unfold assembleRequestUrl
  rw [h1]

/-- Witness for C10: the `'/compuware'` occurrence inside the hostname
`compuware.example.com` (index 6) is not a trailing suffix, yet truncation
happens there. -/
theorem assembleRequestUrl_truncates_interior_witness :
    lastIndexOf compuwareSeg (toLowerStr "http://compuware.example.com".data) = some 6 ∧
    assembleRequestUrl "http://compuware.example.com".data "s1".data
        ⟨"c1".data, "L1".data, ["t1".data]⟩
      = assembleFromBase
          (removeTrailingSlash (stripDecoration ispwSeg ("http://compuware.example.com".data.take 6)))
          "s1".data ⟨"c1".data, "L1".data, ["t1".data]⟩ :=
  ⟨by decide,
    (assembleRequestUrl_truncates_interior "http://compuware.example.com".data "s1".data
      ⟨"c1".data, "L1".data, ["t1".data]⟩ 6 (by decide) (by decide)).2⟩

theorem queryOf_append {p q : List Char} (hp : ∀ c ∈ p, c ≠ '?') :
    queryOf (p ++ '?' :: q) = q := by
  unfold queryOf
  induction p with
  | nil => simp [List.dropWhile]
  | cons c cs ih =>
    rw [List.cons_append, List.dropWhile_cons]
    have hc : c ≠ '?' := hp c (by simp)
    rw [if_pos (by simp [hc])]
    exact ih fun a ha => hp a (by simp [ha])

/-- C4: the assembled url is the normalized base, the fixed path, a `?`, then
one `taskId={id}&` entry per task id in input order — the `&` after the last
entry included — and finally a single `level={taskLevel}` entry; when neither
the normalized base nor `srid` nor `containerId` contains `?`, that tail is
exactly the query component of the url. -/
theorem assembleRequestUrl_query_shape (cesUrl srid : List Char) (bp : BuildParms) :
    assembleRequestUrl cesUrl srid bp =
      (removeTrailingSlash (stripDecoration ispwSeg (stripDecoration compuwareSeg cesUrl)) ++
        "/ispw/".data ++ srid ++ "/assignments/".data ++ bp.containerId ++
        "/taskIds/generate-await".data) ++ '?' ::
        ((bp.taskIds.map taskIdEntry).flatten ++
          "level=".data ++ bp.taskLevel)
    ∧ ((∀ c ∈ removeTrailingSlash (stripDecoration ispwSeg (stripDecoration compuwareSeg cesUrl)),
          c ≠ '?') → (∀ c ∈ srid, c ≠ '?') → (∀ c ∈ bp.containerId, c ≠ '?') →
        queryOf (assembleRequestUrl cesUrl srid bp) =
          (bp.taskIds.map taskIdEntry).flatten ++
            "level=".data ++ bp.taskLevel) := by
  have hmain : assembleRequestUrl cesUrl srid bp =
      (removeTrailingSlash (stripDecoration ispwSeg (stripDecoration compuwareSeg cesUrl)) ++
        "/ispw/".data ++ srid ++ "/assignments/".data ++ bp.containerId ++
        "/taskIds/generate-await".data) ++ '?' ::
        ((bp.taskIds.map taskIdEntry).flatten ++
          "level=".data ++ bp.taskLevel) := by
    simp only [assembleRequestUrl, assembleFromBase]
    rw [foldl_taskIds]
    simp [List.append_assoc]
  refine ⟨hmain, fun hbase hsrid hcid => ?_⟩
  rw [hmain]
  apply queryOf_append
  have h1 : ∀ c ∈ ("/ispw/".data : List Char), c ≠ '?' := by decide
  have h2 : ∀ c ∈ ("/assignments/".data : List Char), c ≠ '?' := by decide
  have h3 : ∀ c ∈ ("/taskIds/generate-await".data : List Char), c ≠ '?' := by decide
  intro c hc
  simp only [List.append_assoc, List.mem_append] at hc
  rcases hc with hc | hc | hc | hc | hc | hc
  · exact hbase c hc
  · exact h1 c hc
  · exact hsrid c hc
  · exact h2 c hc
  · exact hcid c hc
  · exact h3 c hc

/-- Witness for C4: two task ids produce `taskId=t1&taskId=t2&level=L1` as the
query component. -/
theorem assembleRequestUrl_query_shape_witness :
    queryOf (assembleRequestUrl "http://host".data "s1".data
        ⟨"c1".data, "L1".data, ["t1".data, "t2".data]⟩)
      = (["t1".data, "t2".data].map taskIdEntry).flatten ++ "level=".data ++ "L1".data :=
  (assembleRequestUrl_query_shape "http://host".data "s1".data
    ⟨"c1".data, "L1".data, ["t1".data, "t2".data]⟩).2 (by decide) (by decide) (by decide)

/-! ## Theorems about the response interpreter -/

theorem getProp_ok {v : JSValue} (key : List Char)
    (h1 : isUndef v = false) (h2 : isNull v = false) :
    getProp v key = .ok (propOf v key) := by
  cases v <;> simp_all [getProp, propOf, isUndef, isNull] <;> split <;> rfl

/-- C6 counterexample: a `null` responseBody is "absent", yet the code does not
throw the claimed `GenerateFailureException`: `responseBody === undefined` is
false for `null`, and the subsequent `responseBody.awaitStatus` read throws a
`TypeError` instead. -/
theorem handleResponseBody_null_no_response_counterexample :
    handleResponseBody JSValue.null = ([], Except.error JsError.typeError) ∧
    JsError.typeError ≠ JsError.generateFailure noResponseMessage :=
  ⟨rfl, by decide⟩

/-- C6 (amended): for an `undefined` responseBody, `handleResponseBody` fails
with `GenerateFailureException('No response was received from the generate
request.')` and logs nothing; a `null` responseBody instead raises a
`TypeError`. -/
theorem handleResponseBody_undefined :
    handleResponseBody JSValue.undefined =
      ([], Except.error (JsError.generateFailure noResponseMessage)) := rfl

/-- C2 counterexample: for the non-undefined responseBody `null` the claim
predicts the `awaitStatus`-absent branch — a logged message (none here) and
`GenerateFailureException('The generate did not complete successfully.')` —
but the code raises a `TypeError` reading `null.awaitStatus`. -/
theorem handleResponseBody_null_classification_counterexample :
    handleResponseBody JSValue.null = ([], Except.error JsError.typeError) ∧
    JsError.typeError ≠ JsError.generateFailure incompleteMessage :=
  ⟨rfl, by decide⟩

/-- C2 (amended): for every responseBody that is neither `undefined` nor
`null` and whose `awaitStatus` member is not `null`, `handleResponseBody`
classifies in order: absent `awaitStatus` logs the truthy `message` (if any)
and fails with the incomplete-generate message; a `generateFailedCount` not
strictly equal to `0` logs the formatted status at error level and fails with
the generate-failures message; otherwise it logs the formatted status
informationally and returns the responseBody unchanged. -/
theorem handleResponseBody_classification (rb : JSValue)
    (h1 : isUndef rb = false) (_h2 : isNull rb = false)
    (h3 : getProp rb "awaitStatus".data ≠ Except.ok JSValue.null) :
    (getProp rb "awaitStatus".data = .ok .undefined →
      handleResponseBody rb =
        ((if truthy (propOf rb "message".data) then
            [ConsoleLine.log (propOf rb "message".data)]
          else []),
          .error (.generateFailure incompleteMessage)))
    ∧ (∀ aw, getProp rb "awaitStatus".data = .ok aw → isUndef aw = false →
        propOf aw "generateFailedCount".data ≠ .num 0 →
        handleResponseBody rb =
          ([ConsoleLine.error (.str (getStatusMessageToPrint (propOf aw "statusMsg".data)))],
            .error (.generateFailure failuresMessage)))
    ∧ (∀ aw, getProp rb "awaitStatus".data = .ok aw →
        propOf aw "generateFailedCount".data = .num 0 →
        handleResponseBody rb =
          ([ConsoleLine.log (.str (getStatusMessageToPrint (propOf aw "statusMsg".data)))],
            .ok rb)) := by
  refine ⟨?_, ?_, ?_⟩
  · intro hA
    unfold handleResponseBody
    rw [h1, hA]
    simp [isUndef]
  · intro aw hA hU hG
    have hawnull : isNull aw = false := by
      cases aw
      case null => exact absurd hA h3
      all_goals rfl
    have hgfc := getProp_ok "generateFailedCount".data hU hawnull
    have hzero : isZeroNum (propOf aw "generateFailedCount".data) = false := by
      cases hp : propOf aw "generateFailedCount".data with
      | num n =>
        by_cases hn : n = 0
        · subst hn
          exact absurd hp hG
        · simp [isZeroNum, hn]
      | undefined => rfl
      | null => rfl
      | bool b => rfl
      | str s => rfl
      | arr a => rfl
      | obj o => rfl
    unfold handleResponseBody
    rw [h1, hA]
    simp [hU, hgfc, hzero]
  · intro aw hA hG
    have hU : isUndef aw = false := by
      cases aw
      case undefined => exact absurd hG (by decide)
      all_goals rfl
    have hawnull : isNull aw = false := by
      cases aw
      case null => exact absurd hG (by decide)
      all_goals rfl
    have hgfc := getProp_ok "generateFailedCount".data hU hawnull
    have hzero : isZeroNum (propOf aw "generateFailedCount".data) = true := by
      rw [hG]; rfl
    unfold handleResponseBody
    rw [h1, hA]
    simp [hU, hgfc, hzero]

/-- Witness for C2: a concrete successful response is classified by the third
branch and returned unchanged. -/
theorem handleResponseBody_classification_witness :
    handleResponseBody
        (.obj (.cons "awaitStatus".data
          (.obj (.cons "generateFailedCount".data (.num 0)
            (.cons "statusMsg".data (.str "ok".data) .nil))) .nil)) =
      ([ConsoleLine.log (.str "ok".data)],
        .ok (.obj (.cons "awaitStatus".data
          (.obj (.cons "generateFailedCount".data (.num 0)
            (.cons "statusMsg".data (.str "ok".data) .nil))) .nil))) :=
  (handleResponseBody_classification
      (.obj (.cons "awaitStatus".data
        (.obj (.cons "generateFailedCount".data (.num 0)
          (.cons "statusMsg".data (.str "ok".data) .nil))) .nil))
      rfl rfl (fun h => by exact absurd (Except.ok.inj h) (by decide))).2.2
    (.obj (.cons "generateFailedCount".data (.num 0)
      (.cons "statusMsg".data (.str "ok".data) .nil)))
    rfl rfl

/-- C9: an `awaitStatus` object that is present but carries no
`generateFailedCount` member takes the failure branch — `undefined !== 0` —
logging the formatted `statusMsg` via `console.error` and failing with
`GenerateFailureException('There were generate failures.')`. -/
theorem handleResponseBody_missing_failed_count (rb aw sm : JSValue)
    (hA : getProp rb "awaitStatus".data = .ok aw)
    (hU : isUndef aw = false)
    (hG : getProp aw "generateFailedCount".data = .ok .undefined)
    (hS : getProp aw "statusMsg".data = .ok sm) :
    handleResponseBody rb =
      ([ConsoleLine.error (.str (getStatusMessageToPrint sm))],
        .error (.generateFailure failuresMessage)) := by
  have h1 : isUndef rb = false := by
    cases rb <;> first | rfl | exact absurd hA (by simp [getProp])
  have hsm : propOf aw "statusMsg".data = sm := by
    unfold propOf
    rw [hS]
  unfold handleResponseBody
  rw [h1, hA]
  simp [hU, hG, isZeroNum, hsm]

/-- Witness for C9: `awaitStatus` present with only a `statusMsg`. -/
theorem handleResponseBody_missing_failed_count_witness :
    handleResponseBody
        (.obj (.cons "awaitStatus".data
          (.obj (.cons "statusMsg".data (.str "boom".data) .nil)) .nil)) =
      ([ConsoleLine.error (.str "boom".data)],
        .error (.generateFailure failuresMessage)) :=
  handleResponseBody_missing_failed_count
    (.obj (.cons "awaitStatus".data
      (.obj (.cons "statusMsg".data (.str "boom".data) .nil)) .nil))
    (.obj (.cons "statusMsg".data (.str "boom".data) .nil))
    (.str "boom".data) rfl rfl rfl rfl

theorem statusConcat_strArr (acc : List Char) (ss : List (List Char)) :
    statusConcat acc (strArr ss) = acc ++ (ss.map fun s => s ++ ['\n']).flatten := by
  induction ss generalizing acc with
  | nil => simp [strArr, statusConcat]
  | cons s tl ih =>
    simp [strArr, statusConcat, jsToString, ih, List.append_assoc]

/-- C7: `getStatusMessageToPrint` passes a single string through unchanged,
renders an array of strings as each entry followed by a newline — the last
entry included — and yields the empty string on any value that is neither a
string nor an array. -/
theorem getStatusMessageToPrint_spec :
    (∀ s, getStatusMessageToPrint (.str s) = s)
    ∧ (∀ ss : List (List Char),
        getStatusMessageToPrint (.arr (strArr ss)) = (ss.map fun s => s ++ ['\n']).flatten)
    ∧ (∀ v, isStr v = false → isArr v = false → getStatusMessageToPrint v = []) := by
  refine ⟨fun s => rfl, fun ss => ?_, fun v h1 h2 => ?_⟩
  · simp [getStatusMessageToPrint, statusConcat_strArr]
  · cases v <;> simp_all [isStr, isArr, getStatusMessageToPrint]

/-- Witness for C7: a number is neither string nor array and prints as `''`. -/
theorem getStatusMessageToPrint_spec_witness :
    getStatusMessageToPrint (.num 7) = [] :=
  getStatusMessageToPrint_spec.2.2 (.num 7) rfl rfl

/-! ## Theorems about `validateBuildParms` -/

theorem validateBuildParms_foldl (bp : JSValue) (req : List (List Char)) (b : Bool)
    (logs : List (List Char)) :
    req.foldl
      (fun acc field =>
        if stringHasContent (propOf bp field) then acc
        else (false, acc.2 ++ [getMissingInputMessage field])) (b, logs)
    = (b && req.all fun f => stringHasContent (propOf bp f),
       logs ++ (req.filter fun f => !stringHasContent (propOf bp f)).map getMissingInputMessage) := by
  induction req generalizing b logs with
  | nil => simp
  | cons f fs ih =>
    cases hf : stringHasContent (propOf bp f)
    · simp [List.foldl_cons, hf, ih, List.append_assoc]
    · simp [List.foldl_cons, hf, ih]

/-- C3 counterexample: with required field `taskIds` bound to a non-empty
array — not a string — `validateBuildParms` still returns `true`, refuting the
claimed "every field is a non-empty string" equivalence. -/
theorem validateBuildParms_nonstring_counterexample :
    (validateBuildParms
        (.obj (.cons "taskIds".data (.arr (.cons (.str "1".data) .nil)) .nil))
        ["taskIds".data]).1 = true
    ∧ isStr (propOf
        (.obj (.cons "taskIds".data (.arr (.cons (.str "1".data) .nil)) .nil))
        "taskIds".data) = false := by
  constructor
  · decide
  · decide

/-- C3 (amended): `validateBuildParms` returns `true` iff `buildParms` is
neither `null` nor `undefined` and every required field passes
`stringHasContent` (not `null`, not `undefined`, `length` not strictly `0` —
non-empty string or non-empty array in the intended use); it reports, in one
pass and in order, exactly one diagnostic per failing field, with the
field-name substitutions of `getMissingInputMessage`. -/
theorem validateBuildParms_spec (bp : JSValue) (req : List (List Char)) :
    ((validateBuildParms bp req).1 = true ↔
      (isNull bp = false ∧ isUndef bp = false ∧
        ∀ f ∈ req, stringHasContent (propOf bp f) = true))
    ∧ (validateBuildParms bp req).2 =
        (if isNull bp || isUndef bp then []
         else (req.filter fun f => !stringHasContent (propOf bp f)).map getMissingInputMessage)
    ∧ getMissingInputMessage "containerId".data
        = "Missing input: an assignment ID must be specified.".data
    ∧ getMissingInputMessage "releaseId".data
        = "Missing input: a release ID must be specified.".data
    ∧ getMissingInputMessage "taskLevel".data
        = "Missing input: a level must be specified.".data
    ∧ getMissingInputMessage "taskIds".data
        = "Missing input: a list of task IDs must be specified.".data := by
  refine ⟨?_, ?_, by decide, by decide, by decide, by decide⟩
  · unfold validateBuildParms
    cases hn : isNull bp <;> cases hu : isUndef bp <;>
      simp [validateBuildParms_foldl, List.all_eq_true]
  · unfold validateBuildParms
    cases hn : isNull bp <;> cases hu : isUndef bp <;>
      simp [validateBuildParms_foldl]

theorem stringHasContent_str (s : List Char) : stringHasContent (.str s) = !s.isEmpty := by
  cases s with
  | nil => rfl
  | cons c cs =>
    simp [stringHasContent, propOf, getProp, isZeroNum, isNull, isUndef, List.isEmpty]
    omega

/-- C5: for string inputs, the assembled body holds `runtimeConfig`,
`changeType` and `execStat` (renamed from `executionStatus`) exactly when the
corresponding input is non-empty, always holds `autoDeploy` — `true` iff the
raw input is exactly `'true'` — and holds no other member. -/
theorem assembleRequestBodyObject_spec (rc ct es ad : List Char) :
    (lookupEntry (assembleRequestBodyObject (.str rc) (.str ct) (.str es) (.str ad))
        "runtimeConfig".data = if rc.isEmpty then none else some (.str rc))
    ∧ (lookupEntry (assembleRequestBodyObject (.str rc) (.str ct) (.str es) (.str ad))
        "changeType".data = if ct.isEmpty then none else some (.str ct))
    ∧ (lookupEntry (assembleRequestBodyObject (.str rc) (.str ct) (.str es) (.str ad))
        "execStat".data = if es.isEmpty then none else some (.str es))
    ∧ (lookupEntry (assembleRequestBodyObject (.str rc) (.str ct) (.str es) (.str ad))
        "autoDeploy".data = some (.bool (ad == "true".data)))
    ∧ ((assembleRequestBodyObject (.str rc) (.str ct) (.str es) (.str ad)).map Prod.fst
        = (if rc.isEmpty then [] else ["runtimeConfig".data])
          ++ (if ct.isEmpty then [] else ["changeType".data])
          ++ (if es.isEmpty then [] else ["execStat".data])
          ++ ["autoDeploy".data]) := by
  unfold assembleRequestBodyObject
  rw [stringHasContent_str, stringHasContent_str, stringHasContent_str]
  cases hrc : rc.isEmpty <;> cases hct : ct.isEmpty <;> cases hes : es.isEmpty <;>
    simp [lookupEntry, strictEqStr]

/-! ## Round-trip: decimal numbers -/

theorem digitChar_isDigit {m : Nat} (h : m < 10) : (digitChar m).isDigit = true := by
  interval_cases m <;> decide

theorem digitVal_digitChar {m : Nat} (h : m < 10) : digitVal (digitChar m) = m := by
  interval_cases m <;> decide

theorem natDecGo_spec : ∀ fuel n, n < fuel →
    natDecGo fuel n ≠ [] ∧ (∀ c ∈ natDecGo fuel n, c.isDigit = true) ∧
      digitsVal (natDecGo fuel n) = n := by
  intro fuel
  induction fuel with
  | zero => intro n h; omega
  | succ f ih =>
    intro n h
    unfold natDecGo
    by_cases h10 : n < 10
    · rw [if_pos h10]
      refine ⟨by simp, ?_, ?_⟩
      · intro c hc
        simp only [List.mem_singleton] at hc
        subst hc
        exact digitChar_isDigit h10
      · simp [digitsVal, digitVal_digitChar h10]
    · rw [if_neg h10]
      have hn10 : n / 10 < f := by omega
      obtain ⟨hne, hdig, hval⟩ := ih (n / 10) hn10
      refine ⟨by simp [hne], ?_, ?_⟩
      · intro c hc
        rw [List.mem_append] at hc
        rcases hc with hc | hc
        · exact hdig c hc
        · simp only [List.mem_singleton] at hc
          subst hc
          exact digitChar_isDigit (by omega)
      · simp only [digitsVal] at hval ⊢
        rw [List.foldl_append, hval]
        simp [digitVal_digitChar (show n % 10 < 10 by omega)]
        omega

theorem natDec_spec (n : Nat) :
    natDec n ≠ [] ∧ (∀ c ∈ natDec n, c.isDigit = true) ∧ digitsVal (natDec n) = n :=
  natDecGo_spec (n + 1) n (by omega)

theorem takeWhile_append_all {l l2 : List Char} (p : Char → Bool)
    (h : ∀ c ∈ l, p c = true) : (l ++ l2).takeWhile p = l ++ l2.takeWhile p := by
  induction l with
  | nil => rfl
  | cons c cs ih =>
    rw [List.cons_append, List.takeWhile_cons, h c (by simp)]
    rw [ih fun a ha => h a (by simp [ha])]
    rfl

theorem dropWhile_append_all {l l2 : List Char} (p : Char → Bool)
    (h : ∀ c ∈ l, p c = true) : (l ++ l2).dropWhile p = l2.dropWhile p := by
  induction l with
  | nil => rfl
  | cons c cs ih =>
    rw [List.cons_append, List.dropWhile_cons, h c (by simp)]
    rw [ih fun a ha => h a (by simp [ha])]
    rfl

theorem takeWhile_noLead {l : List Char} (h : noLeadDigit l = true) :
    l.takeWhile Char.isDigit = [] := by
  cases l with
  | nil => rfl
  | cons c cs =>
    simp only [noLeadDigit, Bool.not_eq_true'] at h
    rw [List.takeWhile_cons, h]
    rfl

theorem dropWhile_noLead {l : List Char} (h : noLeadDigit l = true) :
    l.dropWhile Char.isDigit = l := by
  cases l with
  | nil => rfl
  | cons c cs =>
    simp only [noLeadDigit, Bool.not_eq_true'] at h
    rw [List.dropWhile_cons, h]
    rfl

theorem parseV_nat (fuel : Nat) (m : Nat) (rest : List Char)
    (hrest : noLeadDigit rest = true) :
    parseV (fuel + 1) (natDec m ++ rest) = some (.num (m : Int), rest) := by
  obtain ⟨hne, hdig, hval⟩ := natDec_spec m
  obtain ⟨c, ds, hds⟩ := List.exists_cons_of_ne_nil hne
  have hcdig : c.isDigit = true := hdig c (by rw [hds]; simp)
  have htake : ((c :: ds) ++ rest).takeWhile Char.isDigit = c :: ds := by
    rw [takeWhile_append_all Char.isDigit (fun a ha => hdig a (by rw [hds]; exact ha)),
      takeWhile_noLead hrest, List.append_nil]
  have hdrop : ((c :: ds) ++ rest).dropWhile Char.isDigit = rest := by
    rw [dropWhile_append_all Char.isDigit (fun a ha => hdig a (by rw [hds]; exact ha)),
      dropWhile_noLead hrest]
  rw [hds]
  rw [List.cons_append]
  unfold parseV
  rw [if_pos hcdig]
  rw [← List.cons_append, htake, hdrop, ← hds, hval]

theorem parseV_num (fuel : Nat) (n : Int) (rest : List Char)
    (hrest : noLeadDigit rest = true) :
    parseV (fuel + 1) (intToDec n ++ rest) = some (.num n, rest) := by
  unfold intToDec
  by_cases hneg : n < 0
  · rw [if_pos hneg]
    obtain ⟨hne, hdig, hval⟩ := natDec_spec n.natAbs
    obtain ⟨c, ds, hds⟩ := List.exists_cons_of_ne_nil hne
    have hcdig : c.isDigit = true := hdig c (by rw [hds]; simp)
    have htake : ((c :: ds) ++ rest).takeWhile Char.isDigit = c :: ds := by
      rw [takeWhile_append_all Char.isDigit (fun a ha => hdig a (by rw [hds]; exact ha)),
        takeWhile_noLead hrest, List.append_nil]
    have hdrop : ((c :: ds) ++ rest).dropWhile Char.isDigit = rest := by
      rw [dropWhile_append_all Char.isDigit (fun a ha => hdig a (by rw [hds]; exact ha)),
        dropWhile_noLead hrest]
    rw [hds]
    rw [List.cons_append, List.cons_append]
    unfold parseV
    rw [if_neg (by decide), if_pos rfl]
    simp only [hcdig, if_true]
    rw [← List.cons_append, htake, hdrop, ← hds, hval]
    have hnn : -(n.natAbs : Int) = n := by omega
    rw [hnn]
  · rw [if_neg hneg]
    have h1 := parseV_nat fuel n.toNat rest hrest
    have h2 : (n.toNat : Int) = n := by omega
    rw [h2] at h1
    exact h1

/-! ## Round-trip: escaped strings -/

theorem hexVal_hexChar {m : Nat} (h : m < 16) : hexVal (hexChar m) = some m := by
  interval_cases m <;> decide

theorem parseJStr_escape (s : List Char) : ∀ rest,
    parseJStr (escapeString s ++ '"' :: rest) = some (s, rest) := by
  induction s with
  | nil =>
    intro rest
    show parseJStr ('"' :: rest) = some ([], rest)
    rw [parseJStr.eq_def]
    simp
  | cons c cs ih =>
    intro rest
    have hesc : escapeString (c :: cs) = escapeChar c ++ escapeString cs := by
      simp [escapeString]
    rw [hesc, List.append_assoc]
    unfold escapeChar
    split_ifs with h1 h2 h3 h4 h5 h6 h7 h8
    · subst h1
      rw [List.cons_append, List.cons_append, parseJStr.eq_def]
      simp [unescapeChar, ih rest]
    · subst h2
      rw [List.cons_append, List.cons_append, parseJStr.eq_def]
      simp [unescapeChar, ih rest]
    · subst h3
      rw [List.cons_append, List.cons_append, parseJStr.eq_def]
      simp [unescapeChar, ih rest]
    · subst h4
      rw [List.cons_append, List.cons_append, parseJStr.eq_def]
      simp [unescapeChar, ih rest]
    · subst h5
      rw [List.cons_append, List.cons_append, parseJStr.eq_def]
      simp [unescapeChar, ih rest]
    · subst h6
      rw [List.cons_append, List.cons_append, parseJStr.eq_def]
      simp [unescapeChar, ih rest]
    · subst h7
      rw [List.cons_append, List.cons_append, parseJStr.eq_def]
      simp [unescapeChar, ih rest]
    · have h00 : hexVal '0' = some 0 := by decide
      have hhi : hexVal (hexChar (c.toNat / 16)) = some (c.toNat / 16) :=
        hexVal_hexChar (by omega)
      have hlo : hexVal (hexChar (c.toNat % 16)) = some (c.toNat % 16) :=
        hexVal_hexChar (by omega)
      have hn : ((0 * 16 + 0) * 16 + c.toNat / 16) * 16 + c.toNat % 16 = c.toNat := by omega
      have hvalid : Nat.isValidChar c.toNat := Or.inl (by omega)
      simp only [List.cons_append, List.nil_append]
      rw [parseJStr.eq_def]
      simp [h00, hhi, hlo, hn, hvalid, Char.ofNat_toNat, ih rest]
      have hdm : c.toNat / 16 * 16 + c.toNat % 16 = c.toNat := by omega
      rw [hdm]
      exact ⟨hvalid, Char.ofNat_toNat c⟩
    · simp only [List.singleton_append]
      rw [parseJStr.eq_def]
      simp [h1, h2, ih rest]

theorem intToDec_ne_nil (n : Int) : intToDec n ≠ [] := by
  unfold intToDec
  split
  · simp
  · exact (natDec_spec n.toNat).1

theorem stringifyV_ne_nil (v : JSValue) : stringifyV v ≠ [] := by
  cases v with
  | undefined => decide
  | null => decide
  | bool b => cases b <;> decide
  | num n =>
    show intToDec n ≠ []
    exact intToDec_ne_nil n
  | str s =>
    show quoteStr s ≠ []
    simp [quoteStr]
  | arr a =>
    cases a with
    | nil => decide
    | cons x tl =>
      show '[' :: stringifyV x ++ stringifyA tl ++ [']'] ≠ []
      simp
  | obj o =>
    cases o with
    | nil => decide
    | cons k v tl =>
      show '\x7b' :: quoteStr k ++ ':' :: stringifyV v ++ stringifyO tl ++ ['\x7d'] ≠ []
      simp

theorem stringifyV_head_ne (v : JSValue) : (stringifyV v).head? ≠ some ']' := by
  cases v with
  | undefined => decide
  | null => decide
  | bool b => cases b <;> decide
  | num n =>
    show (intToDec n).head? ≠ some ']'
    unfold intToDec
    split
    · simp
    · obtain ⟨hne, hdig, _⟩ := natDec_spec n.toNat
      obtain ⟨c, ds, hds⟩ := List.exists_cons_of_ne_nil hne
      rw [hds]
      simp only [List.head?_cons, ne_eq, Option.some.injEq]
      intro hc
      subst hc
      have hd := hdig ']' (by rw [hds]; simp)
      simp at hd
  | str s =>
    show (quoteStr s).head? ≠ some ']'
    simp [quoteStr]
  | arr a =>
    cases a with
    | nil => decide
    | cons x tl =>
      show ('[' :: stringifyV x ++ stringifyA tl ++ [']']).head? ≠ some ']'
      simp
  | obj o =>
    cases o with
    | nil => decide
    | cons k v tl =>
      show ('\x7b' :: quoteStr k ++ ':' :: stringifyV v ++ stringifyO tl ++ ['\x7d']).head? ≠
        some ']'
      simp

theorem noLead_sA (tl : JSArr) (rest : List Char) :
    noLeadDigit (stringifyA tl ++ ']' :: rest) = true := by
  cases tl <;> rfl

theorem noLead_sO (tl : JSObj) (rest : List Char) :
    noLeadDigit (stringifyO tl ++ '\x7d' :: rest) = true := by
  cases tl <;> rfl

/-! ## Round-trip: parser branch entries -/

theorem parseV_lit_null (f : Nat) (rest : List Char) :
    parseV (f + 1) ('n' :: 'u' :: 'l' :: 'l' :: rest) = some (.null, rest) := by
  rw [parseV.eq_def]
  simp

theorem parseV_lit_true (f : Nat) (rest : List Char) :
    parseV (f + 1) ('t' :: 'r' :: 'u' :: 'e' :: rest) = some (.bool true, rest) := by
  rw [parseV.eq_def]
  simp

theorem parseV_lit_false (f : Nat) (rest : List Char) :
    parseV (f + 1) ('f' :: 'a' :: 'l' :: 's' :: 'e' :: rest) = some (.bool false, rest) := by
  rw [parseV.eq_def]
  simp

theorem parseV_quote (f : Nat) (r cs r2 : List Char) (h : parseJStr r = some (cs, r2)) :
    parseV (f + 1) ('"' :: r) = some (.str cs, r2) := by
  rw [parseV.eq_def]
  simp [h]

theorem parseV_arr_nil (f : Nat) (rest : List Char) :
    parseV (f + 1) ('[' :: ']' :: rest) = some (.arr .nil, rest) := by
  rw [parseV.eq_def]
  simp

theorem parseV_arr_cons (f : Nat) (c : Char) (r r3 : List Char) (v : JSValue)
    (tl : JSArr) (r4 : List Char) (hc : ¬ c = ']')
    (h1 : parseV f (c :: r) = some (v, r3))
    (h2 : parseA f r3 = some (tl, r4)) :
    parseV (f + 1) ('[' :: c :: r) = some (.arr (.cons v tl), r4) := by
  rw [parseV.eq_def]
  simp [hc, h1, h2]

theorem parseV_obj_nil (f : Nat) (rest : List Char) :
    parseV (f + 1) ('\x7b' :: '\x7d' :: rest) = some (.obj .nil, rest) := by
  rw [parseV.eq_def]
  simp

theorem parseV_obj_cons (f : Nat) (r2 k r4 : List Char) (v : JSValue)
    (r5 : List Char) (tl : JSObj) (r6 : List Char)
    (hk : parseJStr r2 = some (k, ':' :: r4))
    (hv : parseV f r4 = some (v, r5))
    (ht : parseO f r5 = some (tl, r6)) :
    parseV (f + 1) ('\x7b' :: '"' :: r2) = some (.obj (.cons k v tl), r6) := by
  rw [parseV.eq_def]
  simp [hk, hv, ht]

theorem parseA_rb (f : Nat) (rest : List Char) :
    parseA (f + 1) (']' :: rest) = some (.nil, rest) := by
  rw [parseA.eq_def]
  simp

theorem parseA_comma (f : Nat) (r r2 : List Char) (v : JSValue) (tl : JSArr) (r3 : List Char)
    (h1 : parseV f r = some (v, r2))
    (h2 : parseA f r2 = some (tl, r3)) :
    parseA (f + 1) (',' :: r) = some (.cons v tl, r3) := by
  rw [parseA.eq_def]
  simp [h1, h2]

theorem parseO_rb (f : Nat) (rest : List Char) :
    parseO (f + 1) ('\x7d' :: rest) = some (.nil, rest) := by
  rw [parseO.eq_def]
  simp

theorem parseO_comma (f : Nat) (r2 k r4 : List Char) (v : JSValue) (r5 : List Char)
    (tl : JSObj) (r6 : List Char)
    (hk : parseJStr r2 = some (k, ':' :: r4))
    (hv : parseV f r4 = some (v, r5))
    (ht : parseO f r5 = some (tl, r6)) :
    parseO (f + 1) (',' :: '"' :: r2) = some (.cons k v tl, r6) := by
  rw [parseO.eq_def]
  simp [hk, hv, ht]

theorem rtv_undefined : RTV .undefined := by
  intro fuel rest hser
  exact absurd hser (by decide)

theorem rtv_null : RTV .null := by
  intro fuel rest _ hw hrest
  have hw' : 1 ≤ fuel := hw
  obtain ⟨f, rfl⟩ : ∃ f, fuel = f + 1 := ⟨fuel - 1, by omega⟩
  exact parseV_lit_null f rest

theorem rtv_bool (b : Bool) : RTV (.bool b) := by
  cases b <;>
    (intro fuel rest _ hw hrest
     have hw' : 1 ≤ fuel := hw
     obtain ⟨f, rfl⟩ : ∃ f, fuel = f + 1 := ⟨fuel - 1, by omega⟩)
  · exact parseV_lit_false f rest
  · exact parseV_lit_true f rest

theorem rtv_num (n : Int) : RTV (.num n) := by
  intro fuel rest _ hw hrest
  have hw' : 1 ≤ fuel := hw
  obtain ⟨f, rfl⟩ : ∃ f, fuel = f + 1 := ⟨fuel - 1, by omega⟩
  exact parseV_num f n rest hrest

theorem rtv_str (s : List Char) : RTV (.str s) := by
  intro fuel rest _ hw hrest
  have hw' : 1 ≤ fuel := hw
  obtain ⟨f, rfl⟩ : ∃ f, fuel = f + 1 := ⟨fuel - 1, by omega⟩
  show parseV (f + 1) (quoteStr s ++ rest) = some (.str s, rest)
  simp only [quoteStr, List.cons_append, List.append_assoc, List.singleton_append]
  exact parseV_quote f _ s rest (parseJStr_escape s rest)

theorem rta_nil : RTA .nil := by
  intro fuel rest _ hw
  have hw' : 1 ≤ fuel := hw
  obtain ⟨f, rfl⟩ : ∃ f, fuel = f + 1 := ⟨fuel - 1, by omega⟩
  exact parseA_rb f rest

theorem rtv_arr_nil : RTV (.arr .nil) := by
  intro fuel rest _ hw hrest
  have hw' : 1 ≤ fuel := hw
  obtain ⟨f, rfl⟩ : ∃ f, fuel = f + 1 := ⟨fuel - 1, by omega⟩
  exact parseV_arr_nil f rest

theorem rto_nil : RTO .nil := by
  intro fuel rest _ hw
  have hw' : 1 ≤ fuel := hw
  obtain ⟨f, rfl⟩ : ∃ f, fuel = f + 1 := ⟨fuel - 1, by omega⟩
  exact parseO_rb f rest

theorem rtv_obj_nil : RTV (.obj .nil) := by
  intro fuel rest _ hw hrest
  have hw' : 1 ≤ fuel := hw
  obtain ⟨f, rfl⟩ : ∃ f, fuel = f + 1 := ⟨fuel - 1, by omega⟩
  exact parseV_obj_nil f rest

theorem rt_arr_cons (x : JSValue) (tl : JSArr) (hx : RTV x) (htl : RTA tl) :
    RTA (.cons x tl) ∧ RTV (.arr (.cons x tl)) := by
  constructor
  · intro fuel rest hser hw
    have hser' : serializableV x = true ∧ serializableA tl = true := by
      have h2 : (serializableV x && serializableA tl) = true := hser
      simp only [Bool.and_eq_true] at h2
      exact h2
    have hw' : 1 + weightV x + weightA tl ≤ fuel := hw
    obtain ⟨f, rfl⟩ : ∃ f, fuel = f + 1 := ⟨fuel - 1, by omega⟩
    show parseA (f + 1) ((',' :: stringifyV x ++ stringifyA tl) ++ ']' :: rest)
      = some (.cons x tl, rest)
    simp only [List.cons_append, List.append_assoc]
    exact parseA_comma f _ _ x tl rest
      (hx f (stringifyA tl ++ ']' :: rest) hser'.1 (by omega) (noLead_sA tl rest))
      (htl f rest hser'.2 (by omega))
  · intro fuel rest hser hw hrest
    have hser' : serializableV x = true ∧ serializableA tl = true := by
      have h2 : (serializableV x && serializableA tl) = true := hser
      simp only [Bool.and_eq_true] at h2
      exact h2
    have hw' : 1 + weightV x + weightA tl ≤ fuel := hw
    obtain ⟨f, rfl⟩ : ∃ f, fuel = f + 1 := ⟨fuel - 1, by omega⟩
    show parseV (f + 1) (('[' :: stringifyV x ++ stringifyA tl ++ [']']) ++ rest)
      = some (.arr (.cons x tl), rest)
    simp only [List.cons_append, List.append_assoc, List.singleton_append]
    obtain ⟨c, r, hcr⟩ := List.exists_cons_of_ne_nil (stringifyV_ne_nil x)
    have hc : ¬ c = ']' := by
      have hh := stringifyV_head_ne x
      rw [hcr] at hh
      simpa using hh
    have h1 : parseV f (c :: (r ++ (stringifyA tl ++ ']' :: rest)))
        = some (x, stringifyA tl ++ ']' :: rest) := by
      rw [← List.cons_append, ← hcr]
      exact hx f (stringifyA tl ++ ']' :: rest) hser'.1 (by omega) (noLead_sA tl rest)
    have h2 := htl f rest hser'.2 (by omega)
    rw [hcr, List.cons_append]
    exact parseV_arr_cons f c _ _ x tl rest hc h1 h2

theorem rt_obj_cons (k : List Char) (v : JSValue) (tl : JSObj) (hv : RTV v) (htl : RTO tl) :
    RTO (.cons k v tl) ∧ RTV (.obj (.cons k v tl)) := by
  have hk : ∀ X : List Char, parseJStr (escapeString k ++ '"' :: ':' :: X) = some (k, ':' :: X) :=
    fun X => parseJStr_escape k (':' :: X)
  constructor
  · intro fuel rest hser hw
    have hser' : serializableV v = true ∧ serializableO tl = true := by
      have h2 : (serializableV v && serializableO tl) = true := hser
      simp only [Bool.and_eq_true] at h2
      exact h2
    have hw' : 1 + weightV v + weightO tl ≤ fuel := hw
    obtain ⟨f, rfl⟩ : ∃ f, fuel = f + 1 := ⟨fuel - 1, by omega⟩
    show parseO (f + 1) ((',' :: quoteStr k ++ ':' :: stringifyV v ++ stringifyO tl)
      ++ '\x7d' :: rest) = some (.cons k v tl, rest)
    simp only [quoteStr, List.cons_append, List.append_assoc, List.singleton_append]
    exact parseO_comma f _ k _ v _ tl rest (hk _)
      (hv f (stringifyO tl ++ '\x7d' :: rest) hser'.1 (by omega) (noLead_sO tl rest))
      (htl f rest hser'.2 (by omega))
  · intro fuel rest hser hw hrest
    have hser' : serializableV v = true ∧ serializableO tl = true := by
      have h2 : ((serializableV v && serializableO tl) && decide (keysOf (.cons k v tl)).Nodup)
          = true := hser
      simp only [Bool.and_eq_true] at h2
      exact h2.1
    have hw' : 1 + weightV v + weightO tl ≤ fuel := hw
    obtain ⟨f, rfl⟩ : ∃ f, fuel = f + 1 := ⟨fuel - 1, by omega⟩
    show parseV (f + 1) (('\x7b' :: quoteStr k ++ ':' :: stringifyV v ++ stringifyO tl
      ++ ['\x7d']) ++ rest) = some (.obj (.cons k v tl), rest)
    simp only [quoteStr, List.cons_append, List.append_assoc, List.singleton_append]
    exact parseV_obj_cons f _ k _ v _ tl rest (hk _)
      (hv f (stringifyO tl ++ '\x7d' :: rest) hser'.1 (by omega) (noLead_sO tl rest))
      (htl f rest hser'.2 (by omega))

theorem rtv_all (v : JSValue) : RTV v := by
  refine @JSValue.rec RTV (fun a => RTA a ∧ RTV (.arr a)) (fun o => RTO o ∧ RTV (.obj o))
    rtv_undefined rtv_null rtv_bool rtv_num rtv_str
    (fun xs h => h.2) (fun fs h => h.2)
    ⟨rta_nil, rtv_arr_nil⟩ (fun hd tl ih1 ih2 => rt_arr_cons hd tl ih1 ih2.1)
    ⟨rto_nil, rtv_obj_nil⟩ (fun key val tl ih1 ih3 => rt_obj_cons key val tl ih1 ih3.1)
    v

theorem weightV_le (v : JSValue) : weightV v ≤ (stringifyV v).length := by
  refine @JSValue.rec (fun v => weightV v ≤ (stringifyV v).length)
    (fun a => weightA a ≤ (stringifyA a).length + 1)
    (fun o => weightO o ≤ (stringifyO o).length + 1)
    ?_ ?_ ?_ ?_ ?_ ?_ ?_ ?_ ?_ ?_ ?_ v
  · decide
  · decide
  · intro b
    cases b <;> decide
  · intro n
    show 1 ≤ (intToDec n).length
    exact List.length_pos.mpr (intToDec_ne_nil n)
  · intro s
    show 1 ≤ ('"' :: escapeString s ++ ['"']).length
    simp
  · intro xs ih
    cases xs with
    | nil => decide
    | cons x tl =>
      show 1 + weightV x + weightA tl ≤ ('[' :: stringifyV x ++ stringifyA tl ++ [']']).length
      have ih' : 1 + weightV x + weightA tl ≤ ((',' :: stringifyV x) ++ stringifyA tl).length + 1 :=
        ih
      simp only [List.length_cons, List.length_append] at ih' ⊢
      omega
  · intro fs ih
    cases fs with
    | nil => decide
    | cons k v' tl =>
      show 1 + weightV v' + weightO tl ≤
        ('\x7b' :: quoteStr k ++ ':' :: stringifyV v' ++ stringifyO tl ++ ['\x7d']).length
      have ih' : 1 + weightV v' + weightO tl ≤
          ((',' :: quoteStr k ++ ':' :: stringifyV v') ++ stringifyO tl).length + 1 := ih
      simp only [List.length_cons, List.length_append] at ih' ⊢
      omega
  · decide
  · intro hd tl ih1 ih2
    show 1 + weightV hd + weightA tl ≤ ((',' :: stringifyV hd) ++ stringifyA tl).length + 1
    simp only [List.length_cons, List.length_append]
    omega
  · decide
  · intro k v' tl ih1 ih3
    show 1 + weightV v' + weightO tl ≤
      ((',' :: quoteStr k ++ ':' :: stringifyV v') ++ stringifyO tl).length + 1
    simp only [List.length_cons, List.length_append]
    omega

/-- C8 counterexample: `null` is JSON-serializable, yet
`convertObjectToJson(null)` is `''` (the `data !== null` guard), and
`parseStringAsJson('')` returns `undefined`, so the round trip does not give
back `null`. -/
theorem roundTrip_null_counterexample :
    parseStringAsJson (convertObjectToJson JSValue.null) = some JSValue.undefined
    ∧ JSValue.undefined ≠ JSValue.null :=
  ⟨by decide, by decide⟩

/-- C8 (amended): for every JSON-serializable value other than `null` — no
`undefined` inside and duplicate-free object keys, i.e. the faithful image of
a serializable JavaScript object — parsing the serialized text returns the
value unchanged. -/
theorem parseStringAsJson_convertObjectToJson (v : JSValue)
    (hser : serializableV v = true) (hnull : isNull v = false) :
    parseStringAsJson (convertObjectToJson v) = some v := by
  have hconv : convertObjectToJson v = stringifyV v := by
    cases v
    case null => exact absurd hnull (by decide)
    case undefined => exact absurd hser (by decide)
    all_goals rfl
  rw [hconv]
  have hne := stringifyV_ne_nil v
  unfold parseStringAsJson
  rw [stringHasContent_str]
  have hnemp : (stringifyV v).isEmpty = false := by
    cases hsv : stringifyV v
    · exact absurd hsv hne
    · rfl
  rw [hnemp]
  simp only [Bool.not_false, if_true]
  unfold jsonParse
  have hrt := rtv_all v ((stringifyV v).length + 1) [] hser
    (by have := weightV_le v; omega) rfl
  rw [List.append_nil] at hrt
  rw [hrt]

/-- Witness for C8: a nested object with an array, escapes and a negative
number survives the round trip. -/
theorem parseStringAsJson_convertObjectToJson_witness :
    parseStringAsJson (convertObjectToJson
      (.obj (.cons "a".data (.arr (.cons (.num 1) (.cons (.str "x\"y\n".data) .nil)))
        (.cons "b".data (.num (-5)) .nil)))) =
      some (.obj (.cons "a".data (.arr (.cons (.num 1) (.cons (.str "x\"y\n".data) .nil)))
        (.cons "b".data (.num (-5)) .nil))) :=
  parseStringAsJson_convertObjectToJson
    (.obj (.cons "a".data (.arr (.cons (.num 1) (.cons (.str "x\"y\n".data) .nil)))
      (.cons "b".data (.num (-5)) .nil)))
    (by decide) (by decide)

end Ispw

